import Mathlib

/-!
Shallow embedding of the anonymous-conference client core
(`connection_manager.rs`, `crypto.rs`, `conference_manager.rs`,
`state_manager.rs`) and proofs about the claims of its specification.

Modelling conventions:
* bytes are `Nat` (every value produced here is < 256);
* machine integers are `Nat` with explicit `% 2^32` where u32 overflow can
  occur (release-mode wrapping semantics);
* `usize` is 64 bits wide, matching the 64-bit desktop targets this client
  is built for;
* Rust panics (`assert!`, `unwrap()`, out-of-bounds indexing) are modelled
  as `Except.error ()`; `Except.ok` is normal control flow;
* the ChaCha20-Poly1305 cipher, Ristretto255 point/scalar validity and the
  bLSAG sign/verify primitives are abstracted into a `CryptoModel`
  parameter: the claims under study are about the byte-level framing and
  state-machine logic around those primitives, not about the primitives
  themselves.  A decompressed Ristretto point is represented by its
  32-byte compressed encoding (decompression is injective on valid
  encodings);
* asynchronous channel sends are modelled as pure output lists
  (`List UIEvent`, `List Message`, `List ClientEvent`).
-/

namespace AnonConf

/-! ## Byte-level helpers -/

/-- `u32::to_be_bytes`. -/
def u32_to_be_bytes (n : Nat) : List Nat :=
  [n / 2 ^ 24 % 256, n / 2 ^ 16 % 256, n / 2 ^ 8 % 256, n % 256]

/-- `usize::to_be_bytes` on the 64-bit targets this client builds for. -/
def usize_to_be_bytes (n : Nat) : List Nat :=
  [n / 2 ^ 56 % 256, n / 2 ^ 48 % 256, n / 2 ^ 40 % 256, n / 2 ^ 32 % 256,
   n / 2 ^ 24 % 256, n / 2 ^ 16 % 256, n / 2 ^ 8 % 256, n % 256]

/-- `u32::from_be_bytes` (on a 4-byte list). -/
def u32_from_be_bytes (b : List Nat) : Nat :=
  b.foldl (fun acc x => acc * 256 + x) 0

/-- Modulus for wrapping `u32` arithmetic. -/
def U32_MOD : Nat := 2 ^ 32

/-- `read_exact` on a byte stream: consume exactly `n` bytes, or fail if
the stream is shorter. Returns the bytes read and the rest of the
stream. -/
def read_exact (s : List Nat) (n : Nat) : Option (List Nat × List Nat) :=
  if n ≤ s.length then some (s.take n, s.drop n) else none

/-! ## `constants.rs`: events and the framed `Message` record -/

/-- `constants.rs` `Message`: a framed payload produced by a conference
manager and forwarded by the state manager. -/
structure Message where
  conference : Nat
  message : List Nat
  message_id : Option Nat
deriving DecidableEq, Repr

/-- `constants.rs` `ClientEvent`. -/
inductive ClientEvent
  | CreateConference (nonce : Nat) (password_hash join_salt encryption_salt : List Nat)
  | GetConferenceJoinSalt (nonce conference_id : Nat)
  | JoinConference (nonce conference_id : Nat) (password_hash : List Nat)
  | LeaveConference (nonce conference_id : Nat)
  | SendMessage (nonce : Nat) (message : Message)
  | Disconnect
deriving DecidableEq, Repr

/-- `ClientEvent::value()`: the `repr(u8)` discriminant. -/
def ClientEvent.value : ClientEvent → Nat
  | .CreateConference .. => 0x01
  | .GetConferenceJoinSalt .. => 0x02
  | .JoinConference .. => 0x03
  | .LeaveConference .. => 0x04
  | .SendMessage .. => 0x05
  | .Disconnect => 0x06

/-- `constants.rs` `ServerEvent`. -/
inductive ServerEvent
  | HandshakeAcknowledged
  | ConferenceCreated (nonce conference_id : Nat)
  | ConferenceJoinSalt (nonce conference_id : Nat) (join_salt : List Nat)
  | ConferenceJoined (nonce conference_id number_of_peers : Nat) (encryption_salt : List Nat)
  | ConferenceLeft (nonce conference_id : Nat)
  | MessageAccepted (nonce conference_id : Nat)
  | ConferenceRestructuring (conference_id number_of_peers : Nat)
  | IncomingMessage (conference_id : Nat) (message : List Nat)
  | GeneralError
  | ConferenceCreationError (nonce : Nat)
  | ConferenceJoinSaltError (nonce conference_id : Nat)
  | ConferenceJoinError (nonce conference_id : Nat)
  | ConferenceLeaveError (nonce conference_id : Nat)
  | MessageError (nonce conference_id : Nat)
deriving DecidableEq, Repr

/-- `constants.rs` `UIEvent`. -/
inductive UIEvent
  | ConferenceCreated (conference_id : Nat)
  | ConferenceCreateFailed
  | ConferenceJoined (conference_id number_of_peers : Nat)
  | ConferenceJoinFailed (conference_id : Nat)
  | ConferenceLeft (conference_id : Nat)
  | ConferenceLeaveFailed (conference_id : Nat)
  | IncomingMessage (conference_id : Nat) (message : List Nat) (signature_valid : Bool)
  | MessageAccepted (conference_id message_id : Nat)
  | MessageRejected (conference_id message_id : Nat)
  | MessageError (conference_id message_id : Nat)
  | ConferenceRestructuring (conference_id number_of_peers : Nat)
  | ConferenceRestructuringFinished (conference_id : Nat)
deriving DecidableEq, Repr

/-- `constants.rs` `ConferenceEvent`. -/
inductive ConferenceEvent
  | ConferenceRestructuring (number_of_peers : Nat)
  | IncomingMessage (message : List Nat)
  | OutboundMessage (message_id : Nat) (message : List Nat)
deriving DecidableEq, Repr

/-! ## `connection_manager.rs` -/

/-- `connection_manager.rs` `read_server_event`: parse one server frame
from the byte stream, given the already-consumed discriminator byte.
Returns the event and the remaining stream, or `none` for a read failure
or an invalid discriminator.

In the `IncomingMessage` arm the source does
`let mut message = Vec::with_capacity(message_length as usize)` followed
by `reader.read_exact(&mut message)`.  `Vec::with_capacity` produces a
vector of *length* 0, so `read_exact` fills `message.len() = 0` bytes:
no ciphertext byte is consumed from the stream. -/
def read_server_event (event_type : Nat) (s : List Nat) : Option (ServerEvent × List Nat) :=
  if event_type == 0x00 then
    some (.HandshakeAcknowledged, s)
  else if event_type == 0x01 then do
    let (b1, s) ← read_exact s 4
    let (b2, s) ← read_exact s 4
    some (.ConferenceCreated (u32_from_be_bytes b1) (u32_from_be_bytes b2), s)
  else if event_type == 0x02 then do
    let (b1, s) ← read_exact s 4
    let (b2, s) ← read_exact s 4
    let (salt, s) ← read_exact s 32
    some (.ConferenceJoinSalt (u32_from_be_bytes b1) (u32_from_be_bytes b2) salt, s)
  else if event_type == 0x03 then do
    let (b1, s) ← read_exact s 4
    let (b2, s) ← read_exact s 4
    let (b3, s) ← read_exact s 4
    let (salt, s) ← read_exact s 32
    some (.ConferenceJoined (u32_from_be_bytes b1) (u32_from_be_bytes b2) (u32_from_be_bytes b3) salt, s)
  else if event_type == 0x04 then do
    let (b1, s) ← read_exact s 4
    let (b2, s) ← read_exact s 4
    some (.ConferenceLeft (u32_from_be_bytes b1) (u32_from_be_bytes b2), s)
  else if event_type == 0x05 then do
    let (b1, s) ← read_exact s 4
    let (b2, s) ← read_exact s 4
    some (.MessageAccepted (u32_from_be_bytes b1) (u32_from_be_bytes b2), s)
  else if event_type == 0x07 then do
    let (b1, s) ← read_exact s 4
    let (b2, s) ← read_exact s 4
    let _message_length := u32_from_be_bytes b2
    -- `Vec::with_capacity(message_length)` has length 0, so the
    -- subsequent `read_exact(&mut message)` reads 0 bytes.
    let (message, s) ← read_exact s 0
    some (.IncomingMessage (u32_from_be_bytes b1) message, s)
  else if event_type == 0x06 then do
    let (b1, s) ← read_exact s 4
    let (b2, s) ← read_exact s 4
    some (.ConferenceRestructuring (u32_from_be_bytes b1) (u32_from_be_bytes b2), s)
  else if event_type == 0x10 then
    some (.GeneralError, s)
  else if event_type == 0x11 then do
    let (b1, s) ← read_exact s 4
    some (.ConferenceCreationError (u32_from_be_bytes b1), s)
  else if event_type == 0x12 then do
    let (b1, s) ← read_exact s 4
    let (b2, s) ← read_exact s 4
    some (.ConferenceJoinSaltError (u32_from_be_bytes b1) (u32_from_be_bytes b2), s)
  else if event_type == 0x13 then do
    let (b1, s) ← read_exact s 4
    let (b2, s) ← read_exact s 4
    some (.ConferenceJoinError (u32_from_be_bytes b1) (u32_from_be_bytes b2), s)
  else if event_type == 0x14 then do
    let (b1, s) ← read_exact s 4
    let (b2, s) ← read_exact s 4
    some (.ConferenceLeaveError (u32_from_be_bytes b1) (u32_from_be_bytes b2), s)
  else if event_type == 0x15 then do
    let (b1, s) ← read_exact s 4
    let (b2, s) ← read_exact s 4
    some (.MessageError (u32_from_be_bytes b1) (u32_from_be_bytes b2), s)
  else
    none

/-- `connection_manager.rs` `write_client_event`: the bytes written to the
socket for one client event, and whether the connection stays open.
`message.message.len()` is a `usize`, so its `to_be_bytes()` is 8 bytes
wide on the 64-bit targets this client builds for. -/
def write_client_event (event : ClientEvent) : List Nat × Bool :=
  match event with
  | .CreateConference nonce password_hash join_salt encryption_salt =>
      ([event.value] ++ u32_to_be_bytes nonce ++ password_hash ++ join_salt ++ encryption_salt, true)
  | .GetConferenceJoinSalt nonce conference_id =>
      ([event.value] ++ u32_to_be_bytes nonce ++ u32_to_be_bytes conference_id, true)
  | .JoinConference nonce conference_id password_hash =>
      ([event.value] ++ u32_to_be_bytes nonce ++ u32_to_be_bytes conference_id ++ password_hash, true)
  | .LeaveConference nonce conference_id =>
      ([event.value] ++ u32_to_be_bytes nonce ++ u32_to_be_bytes conference_id, true)
  | .SendMessage nonce message =>
      ([event.value] ++ u32_to_be_bytes nonce ++ u32_to_be_bytes message.conference
        ++ usize_to_be_bytes message.message.length ++ message.message, true)
  | .Disconnect =>
      ([event.value], false)

/-! ## `crypto.rs` -/

def KEY_SIZE : Nat := 32
def IV_SIZE : Nat := 12
def TAG_SIZE : Nat := 16

/-- `crypto.rs` `EncryptionResult`. -/
structure EncryptionResult where
  ciphertext : List Nat
  iv : List Nat
deriving DecidableEq, Repr

/-- `EncryptionResult::encode`: `iv ‖ ciphertext`. -/
def EncryptionResult.encode (r : EncryptionResult) : List Nat :=
  r.iv ++ r.ciphertext

/-- `EncryptionResult::decode`: fails when the input is shorter than
`IV_SIZE + TAG_SIZE`; otherwise splits off the 12-byte iv. -/
def EncryptionResult.decode (data : List Nat) : Option EncryptionResult :=
  if data.length < IV_SIZE + TAG_SIZE then none
  else some { ciphertext := data.drop IV_SIZE, iv := data.take IV_SIZE }

/-- `crypto.rs` `apply_ephemeral_key_part`: XOR `part` into `key`
pointwise.  The source asserts `part.len() == KEY_SIZE` and both call
sites pass 32-byte values, so the truncating `zipWith` agrees with the
source on every actual input. -/
def apply_ephemeral_key_part (key part : List Nat) : List Nat :=
  List.zipWith Nat.xor key part

/-- `nazgul::blsag::BLSAG_COMPACT`, with the scalar fields represented by
their 32-byte canonical encodings and the key image by its compressed
encoding. -/
structure BLSAG_COMPACT where
  challenge : List Nat
  responses : List (List Nat)
  key_image : List Nat
deriving DecidableEq, Repr

/-- Abstraction of the cryptographic primitives used by the conference
manager.  `encrypt_message` takes `(message, key)` and already folds in
the random IV choice; `decrypt_message` takes `(key, data)`;
`scalar_canonical` is success of `Scalar::from_canonical_bytes`;
`point_decompressible` is success of `CompressedRistretto::decompress`;
`sign`/`verify` are the bLSAG operations over rings of (decompressed)
points. -/
structure CryptoModel where
  encrypt_message : List Nat → List Nat → Option EncryptionResult
  decrypt_message : List Nat → EncryptionResult → Option (List Nat)
  scalar_canonical : List Nat → Bool
  point_decompressible : List Nat → Bool
  sign : List Nat → Nat → List (List Nat) → List Nat → BLSAG_COMPACT
  verify : BLSAG_COMPACT → List (List Nat) → List Nat → Bool

/-! ## `conference_manager.rs` -/

/-- `conference_manager.rs` `ConferenceState`. -/
inductive ConferenceState
  | Initial
  | PublicKeyExchange
  | PublicKeyExchangeFinished
  | EncryptionKeyNegotiation
  | EncryptionKeyNegotiationFinished
  | NormalOperation
deriving DecidableEq, Repr

/-- `conference_manager.rs` `ClientToClientMessage`. -/
inductive ClientToClientMessage
  | PublicKey (pubkey : List Nat)
  | EncryptionKeyPart (key_part : List Nat)
  | Message (message : List Nat)
deriving DecidableEq, Repr

/-- `ClientToClientMessage::encode`.  The `Message` arm does
`u32::try_from(message.len()).unwrap()`, which panics when the length
does not fit in a u32. -/
def ClientToClientMessage.encode : ClientToClientMessage → Except Unit (List Nat)
  | .PublicKey pubkey => .ok (0x01 :: pubkey)
  | .EncryptionKeyPart key_part => .ok (0x02 :: key_part)
  | .Message message =>
      if message.length < U32_MOD then
        .ok (0x03 :: (u32_to_be_bytes message.length ++ message))
      else
        .error ()

/-- The mutable fields of `conference_manager.rs` `ConferenceManager`
(the channel endpoints are modelled as step outputs instead). -/
structure ConferenceManager where
  conference_id : Nat
  number_of_peers : Nat
  initial_encryption_key : List Nat
  unsorted_public_keys : List (List Nat)
  ring : Option (List (List Nat))
  ring_personal_key_index : Option Nat
  personal_private_key : List Nat
  personal_public_key : List Nat
  state : ConferenceState
  ephemeral_key_parts : Nat
  new_ephemeral_key : List Nat
  ephemeral_encryption_key : Option (List Nat)
deriving DecidableEq, Repr

/-- `HashSet::insert` on the model of `_unsorted_public_keys` (a
duplicate-free list). -/
def hashset_insert (s : List (List Nat)) (x : List Nat) : List (List Nat) :=
  if x ∈ s then s else s ++ [x]

/-- Lexicographic `≤` on byte strings: the derived `Ord` of
`CompressedRistretto` compares the 32-byte encodings lexicographically. -/
def lex_le : List Nat → List Nat → Bool
  | [], _ => true
  | _ :: _, [] => false
  | a :: as, b :: bs => if a < b then true else if b < a then false else lex_le as bs

/-- Insertion step of the sort used for ring construction. -/
def insert_sorted (x : List Nat) : List (List Nat) → List (List Nat)
  | [] => [x]
  | y :: ys => if lex_le x y then x :: y :: ys else y :: insert_sorted x ys

/-- `compressed_ring.sort_unstable()`: sort the compressed keys
lexicographically ascending. -/
def sort_compressed (l : List (List Nat)) : List (List Nat) :=
  l.foldr insert_sorted []

/-- `ConferenceManager::new` with the randomly generated key pair
injected as parameters (`personal_public_key` is the compressed form of
`personal_private_key · G`). -/
def ConferenceManager.new (conference_id number_of_peers : Nat)
    (initial_encryption_key personal_private_key personal_public_key : List Nat) :
    ConferenceManager :=
  { conference_id := conference_id
    number_of_peers := number_of_peers
    initial_encryption_key := initial_encryption_key
    unsorted_public_keys := [personal_public_key]
    ring := none
    ring_personal_key_index := none
    personal_private_key := personal_private_key
    personal_public_key := personal_public_key
    state := .Initial
    ephemeral_key_parts := 0
    new_ephemeral_key := List.replicate 32 0
    ephemeral_encryption_key := none }

/-- Result of one conference-manager action: the new manager state, the
UI events sent, and the framed messages sent to the state manager. -/
abbrev StepResult := ConferenceManager × List UIEvent × List Message

/-- `ConferenceManager::send_message`: encode, encrypt (setup messages
under the initial key, payload messages under the ephemeral key), frame.
The `Message` arm asserts that the ephemeral key and the message id are
present, and both arms `unwrap()` the encryption result. -/
def ConferenceManager.send_message (self : ConferenceManager) (cm : CryptoModel)
    (message : ClientToClientMessage) (message_id : Option Nat) :
    Except Unit (List Message) :=
  match message with
  | .PublicKey _ | .EncryptionKeyPart _ =>
      match message.encode with
      | .error e => .error e
      | .ok encoded =>
          match cm.encrypt_message encoded self.initial_encryption_key with
          | some encrypted_message =>
              .ok [{ conference := self.conference_id,
                     message := encrypted_message.encode,
                     message_id := none }]
          | none => .error ()
  | .Message _ =>
      match self.ephemeral_encryption_key, message_id with
      | some key, some _ =>
          match message.encode with
          | .error e => .error e
          | .ok encoded =>
              match cm.encrypt_message encoded key with
              | some encrypted_message =>
                  .ok [{ conference := self.conference_id,
                         message := encrypted_message.encode,
                         message_id := message_id }]
              | none => .error ()
      | _, _ => .error ()

/-- `ConferenceManager::start_public_key_exchange`. -/
def ConferenceManager.start_public_key_exchange (self : ConferenceManager)
    (cm : CryptoModel) : Except Unit StepResult :=
  let self := { self with state := .PublicKeyExchange }
  match self.send_message cm (.PublicKey self.personal_public_key) none with
  | .ok out => .ok (self, [], out)
  | .error e => .error e

/-- `ConferenceManager::start_ephemeral_key_negotiation`. -/
def ConferenceManager.start_ephemeral_key_negotiation (self : ConferenceManager)
    (cm : CryptoModel) : Except Unit StepResult :=
  let self := { self with state := .EncryptionKeyNegotiation }
  match self.send_message cm (.EncryptionKeyPart self.new_ephemeral_key) none with
  | .ok out => .ok (self, [], out)
  | .error e => .error e

/-- `ConferenceManager::finish_public_key_exchange`: sort the collected
compressed keys, record the personal index (`position(..).unwrap()`),
decompress the ring (`decompress().unwrap()` on each element), then start
the key negotiation. -/
def ConferenceManager.finish_public_key_exchange (self : ConferenceManager)
    (cm : CryptoModel) : Except Unit StepResult :=
  let self := { self with state := .PublicKeyExchangeFinished }
  let compressed_ring := sort_compressed self.unsorted_public_keys
  match compressed_ring.findIdx? (fun key => key == self.personal_public_key) with
  | none => .error ()
  | some idx =>
      let self := { self with ring_personal_key_index := some idx }
      match compressed_ring.mapM
          (fun key => if cm.point_decompressible key then Except.ok key else Except.error ()) with
      | .error e => .error e
      | .ok ring =>
          let self := { self with ring := some ring }
          self.start_ephemeral_key_negotiation cm

/-- `ConferenceManager::finish_conference_setup`. -/
def ConferenceManager.finish_conference_setup (self : ConferenceManager) :
    Except Unit StepResult :=
  let self := { self with state := .NormalOperation }
  .ok (self, [UIEvent.ConferenceRestructuringFinished self.conference_id], [])

/-- `ConferenceManager::decrypt_message_helper`: decode, then the
dual-key policy — in `NormalOperation` try the ephemeral key first and
fall back to the initial key, in every other state the other way round;
with no ephemeral key yet only the initial key is tried. -/
def ConferenceManager.decrypt_message_helper (self : ConferenceManager)
    (cm : CryptoModel) (message : List Nat) : Option (List Nat) :=
  match EncryptionResult.decode message with
  | none => none
  | some encrypted_message =>
      match self.ephemeral_encryption_key with
      | some ephemeral_encryption_key =>
          match self.state with
          | .NormalOperation =>
              match cm.decrypt_message ephemeral_encryption_key encrypted_message with
              | some decrypted_message => some decrypted_message
              | none => cm.decrypt_message self.initial_encryption_key encrypted_message
          | _ =>
              match cm.decrypt_message self.initial_encryption_key encrypted_message with
              | some decrypted_message => some decrypted_message
              | none => cm.decrypt_message ephemeral_encryption_key encrypted_message
      | none => cm.decrypt_message self.initial_encryption_key encrypted_message

/-- `ConferenceManager::read_message`: `assert!(!message.is_empty())`,
decrypt, then parse the 1-byte inner discriminator.  Indexing
`message[0]` into an empty decrypted plaintext is an out-of-bounds
panic. -/
def ConferenceManager.read_message (self : ConferenceManager) (cm : CryptoModel)
    (message : List Nat) : Except Unit (Option ClientToClientMessage) :=
  if message.isEmpty then .error ()
  else
    match self.decrypt_message_helper cm message with
    | none => .ok none
    | some decrypted =>
        match decrypted with
        | [] => .error ()
        | b :: rest =>
            if b == 0x01 then
              if decrypted.length ≠ 33 then .ok none
              else .ok (some (.PublicKey rest))
            else if b == 0x02 then
              .ok (some (.EncryptionKeyPart rest))
            else if b == 0x03 then
              if decrypted.length < 5 then .ok none
              else
                let message_length := u32_from_be_bytes (rest.take 4)
                if decrypted.length ≠ 5 + message_length then .ok none
                else .ok (some (.Message (decrypted.drop 5)))
            else .ok none

/-- `ConferenceManager::check_message_signature`: length check against
`32 + 32 * number_of_peers + 32`, parse challenge, `number_of_peers`
responses and the key image, then verify over `self.ring.unwrap()`.
The parse failures return `None`; the `unwrap()` on an absent ring is a
panic. -/
def ConferenceManager.check_message_signature (self : ConferenceManager)
    (cm : CryptoModel) (message : List Nat) :
    Except Unit (Option (List Nat × Bool)) :=
  if message.length < 32 + 32 * self.number_of_peers + 32 then .ok none
  else
    let challenge := message.take 32
    if ¬ cm.scalar_canonical challenge then .ok none
    else
      let responses :=
        (List.range self.number_of_peers).map
          (fun i => (message.drop (32 + 32 * i)).take 32)
      if ¬ responses.all cm.scalar_canonical then .ok none
      else
        let key_image := (message.drop (32 + 32 * self.number_of_peers)).take 32
        if ¬ cm.point_decompressible key_image then .ok none
        else
          match self.ring with
          | none => .error ()
          | some ring =>
              let signature : BLSAG_COMPACT :=
                { challenge := challenge, responses := responses, key_image := key_image }
              let rest := message.drop (32 + 32 * self.number_of_peers + 32)
              .ok (some (rest, cm.verify signature ring rest))

/-- `ConferenceManager::process_text_message`: deliver the decrypted,
parsed message to the UI together with the signature verdict; a parse
failure is dropped. -/
def ConferenceManager.process_text_message (self : ConferenceManager)
    (cm : CryptoModel) (message : List Nat) : Except Unit StepResult :=
  match self.check_message_signature cm message with
  | .error e => .error e
  | .ok none => .ok (self, [], [])
  | .ok (some (m, is_signature_valid)) =>
      .ok (self, [UIEvent.IncomingMessage self.conference_id m is_signature_valid], [])

/-- `ConferenceManager::process_message_public_key_exchange`. -/
def ConferenceManager.process_message_public_key_exchange (self : ConferenceManager)
    (cm : CryptoModel) (message : List Nat) : Except Unit StepResult :=
  match self.read_message cm message with
  | .error e => .error e
  | .ok none => .ok (self, [], [])
  | .ok (some (.PublicKey pubkey)) =>
      let self := { self with
        unsorted_public_keys := hashset_insert self.unsorted_public_keys pubkey }
      if self.unsorted_public_keys.length == self.number_of_peers then
        self.finish_public_key_exchange cm
      else
        .ok (self, [], [])
  | .ok (some (.Message m)) => self.process_text_message cm m
  | .ok (some _) => .ok (self, [], [])

/-- `ConferenceManager::process_message_ephemeral_key_negotiation`.  The
u32 counter `ephemeral_key_parts` and the u32 subtraction
`number_of_peers - 1` wrap (release semantics). -/
def ConferenceManager.process_message_ephemeral_key_negotiation (self : ConferenceManager)
    (cm : CryptoModel) (message : List Nat) : Except Unit StepResult :=
  match self.read_message cm message with
  | .error e => .error e
  | .ok none => .ok (self, [], [])
  | .ok (some (.EncryptionKeyPart key_part)) =>
      if key_part.length ≠ KEY_SIZE then .ok (self, [], [])
      else
        let self := { self with
          new_ephemeral_key := apply_ephemeral_key_part self.new_ephemeral_key key_part,
          ephemeral_key_parts := (self.ephemeral_key_parts + 1) % U32_MOD }
        if self.ephemeral_key_parts == (self.number_of_peers + U32_MOD - 1) % U32_MOD then
          let self := { self with
            ephemeral_encryption_key := some self.new_ephemeral_key,
            state := .EncryptionKeyNegotiationFinished }
          self.finish_conference_setup
        else
          .ok (self, [], [])
  | .ok (some (.Message m)) => self.process_text_message cm m
  | .ok (some _) => .ok (self, [], [])

/-- `ConferenceManager::process_message_normal_operation`. -/
def ConferenceManager.process_message_normal_operation (self : ConferenceManager)
    (cm : CryptoModel) (message : List Nat) : Except Unit StepResult :=
  match self.read_message cm message with
  | .error e => .error e
  | .ok none => .ok (self, [], [])
  | .ok (some (.Message m)) => self.process_text_message cm m
  | .ok (some _) => .ok (self, [], [])

/-- `ConferenceManager::process_incoming_message`: dispatch on the
current state; `Initial` and the transient `*Finished` states drop the
message. -/
def ConferenceManager.process_incoming_message (self : ConferenceManager)
    (cm : CryptoModel) (message : List Nat) : Except Unit StepResult :=
  match self.state with
  | .Initial => .ok (self, [], [])
  | .PublicKeyExchange => self.process_message_public_key_exchange cm message
  | .EncryptionKeyNegotiation => self.process_message_ephemeral_key_negotiation cm message
  | .NormalOperation => self.process_message_normal_operation cm message
  | _ => .ok (self, [], [])

/-- `ConferenceManager::sign_message`: asserts the ring and the personal
index are present, signs and emits
`challenge ‖ responses ‖ key_image ‖ message`. -/
def ConferenceManager.sign_message (self : ConferenceManager) (cm : CryptoModel)
    (message : List Nat) : Except Unit (List Nat) :=
  match self.ring, self.ring_personal_key_index with
  | some ring, some idx =>
      let signature := cm.sign self.personal_private_key idx ring message
      .ok (signature.challenge ++ signature.responses.flatten
            ++ signature.key_image ++ message)
  | _, _ => .error ()

/-- `ConferenceManager::process_outbound_message`: in `NormalOperation`
assert the ring state, sign and send; in every other state emit a
`MessageError` UI event. -/
def ConferenceManager.process_outbound_message (self : ConferenceManager)
    (cm : CryptoModel) (message_id : Nat) (message : List Nat) :
    Except Unit StepResult :=
  match self.state with
  | .NormalOperation =>
      if self.ring.isSome && self.ring_personal_key_index.isSome
          && self.ephemeral_encryption_key.isSome then
        match self.sign_message cm message with
        | .error e => .error e
        | .ok signed_message =>
            match self.send_message cm (.Message signed_message) (some message_id) with
            | .error e => .error e
            | .ok out => .ok (self, [], out)
      else
        .error ()
  | _ =>
      .ok (self, [UIEvent.MessageError self.conference_id message_id], [])

/-- `ConferenceManager::initiate_conference_restructuring`: take the new
peer count, reseed the public-key set with self, draw a fresh ephemeral
key part (`rnd` injects the randomness), reset the counter, and restart
the public key exchange.  The ring and the ephemeral encryption key are
deliberately not cleared. -/
def ConferenceManager.initiate_conference_restructuring (self : ConferenceManager)
    (cm : CryptoModel) (rnd : List Nat) (new_number_of_peers : Nat) :
    Except Unit StepResult :=
  let self := { self with
    number_of_peers := new_number_of_peers,
    unsorted_public_keys := [self.personal_public_key],
    new_ephemeral_key := rnd,
    ephemeral_key_parts := 0 }
  self.start_public_key_exchange cm

/-- One iteration of the `start_conference_manager` event loop. -/
def ConferenceManager.process_event (self : ConferenceManager) (cm : CryptoModel)
    (rnd : List Nat) : ConferenceEvent → Except Unit StepResult
  | .ConferenceRestructuring number_of_peers =>
      self.initiate_conference_restructuring cm rnd number_of_peers
  | .IncomingMessage message => self.process_incoming_message cm message
  | .OutboundMessage message_id message =>
      self.process_outbound_message cm message_id message

/-- The part of `start_conference_manager` that runs before the event
loop: the initial public key exchange broadcast. -/
def ConferenceManager.start_conference_manager (self : ConferenceManager)
    (cm : CryptoModel) : Except Unit StepResult :=
  self.start_public_key_exchange cm

/-- The conference-manager states reachable without a panic: the state
right after `ConferenceManager::new` plus `start_conference_manager`,
closed under non-panicking event-loop iterations (with arbitrary
injected randomness). -/
inductive ConferenceReachable (cm : CryptoModel) : ConferenceManager → Prop
  | startup (conference_id number_of_peers : Nat)
      (initial_encryption_key personal_private_key personal_public_key : List Nat)
      (st : ConferenceManager) (ui : List UIEvent) (out : List Message) :
      (ConferenceManager.new conference_id number_of_peers initial_encryption_key
        personal_private_key personal_public_key).start_conference_manager cm
        = .ok (st, ui, out) →
      ConferenceReachable cm st
  | step (st : ConferenceManager) (rnd : List Nat) (ev : ConferenceEvent)
      (st' : ConferenceManager) (ui : List UIEvent) (out : List Message) :
      ConferenceReachable cm st →
      st.process_event cm rnd ev = .ok (st', ui, out) →
      ConferenceReachable cm st'

/-! ## `state_manager.rs` -/

/-- `state_manager.rs` `SentEvent`. -/
inductive SentEvent
  | CreateConference
  | GetConferenceJoinSalt (conference_id : Nat) (password : String)
  | JoinConference (conference_id : Nat) (password : String)
  | LeaveConference (conference_id : Nat)
  | SendMessage (conference_id message_id : Nat)
  | Disconnect
deriving DecidableEq, Repr

/-- The state owned by the `start_state_manager` loop: the conference
table (only the ids matter here), the correlation table, and the nonce
counter. -/
structure StateManager where
  conferences : List Nat
  sent_packets : List (Nat × SentEvent)
  send_packets_last_index : Nat
deriving DecidableEq, Repr

/-- `HashMap::remove` on the association-list model. -/
def hashmap_remove (m : List (Nat × SentEvent)) (k : Nat) : List (Nat × SentEvent) :=
  m.filter (fun p => p.1 != k)

/-- `HashMap::insert` on the association-list model (keys stay unique). -/
def hashmap_insert (m : List (Nat × SentEvent)) (k : Nat) (v : SentEvent) :
    List (Nat × SentEvent) :=
  (k, v) :: hashmap_remove m k

/-- The `message_receiver` arm of the `start_state_manager` loop: a
framed `Message` arrives from a conference manager; a fresh nonce is
assigned, `SentEvent::CreateConference` is inserted as the correlation
entry (sic — the source inserts `CreateConference`, not `SendMessage`),
and a `SendMessage` client event is dispatched. -/
def StateManager.handle_conference_message (self : StateManager) (message : Message) :
    StateManager × List ClientEvent :=
  let packet_nonce := (self.send_packets_last_index + 1) % U32_MOD
  ({ self with
      send_packets_last_index := packet_nonce,
      sent_packets := hashmap_insert self.sent_packets packet_nonce SentEvent.CreateConference },
   [ClientEvent.SendMessage packet_nonce message])

/-- The `ServerEvent::MessageAccepted` arm of the `start_state_manager`
loop: look the nonce up in `sent_packets`; on an unknown nonce or a
mismatched entry shape or conference id, log and drop; on a match,
consume the entry and emit `UIEvent::MessageAccepted`. -/
def StateManager.handle_message_accepted (self : StateManager)
    (packet_nonce conference_id : Nat) : StateManager × List UIEvent :=
  match self.sent_packets.lookup packet_nonce with
  | some (SentEvent.SendMessage expected_conference_id message_id) =>
      if conference_id ≠ expected_conference_id then (self, [])
      else
        ({ self with sent_packets := hashmap_remove self.sent_packets packet_nonce },
         [UIEvent.MessageAccepted conference_id message_id])
  | some _ => (self, [])
  | none => (self, [])

/-! ## Concrete inputs used by the theorems below -/

/-- 32 zero bytes: used as a demo key and as the `[0; 32]` initial
`new_ephemeral_key`. -/
def zero_key : List Nat := List.replicate 32 0

/-- A demo 12-byte IV. -/
def demo_iv : List Nat := List.replicate 12 0

/-- A demo compressed public key (the local peer's). -/
def pubA : List Nat := List.replicate 32 1

/-- A demo compressed public key (a remote peer's). -/
def pubB : List Nat := List.replicate 32 9

/-- A crypto model in which every operation succeeds: encryption records
the plaintext as the ciphertext with a fixed IV, decryption returns the
recorded plaintext under any key, every scalar is canonical, every point
decompresses, and every signature verifies. -/
def trivial_crypto : CryptoModel :=
  { encrypt_message := fun m _ => some { ciphertext := m, iv := demo_iv }
    decrypt_message := fun _ er => some er.ciphertext
    scalar_canonical := fun _ => true
    point_decompressible := fun _ => true
    sign := fun _ _ ring _ =>
      { challenge := zero_key, responses := ring.map (fun _ => zero_key), key_image := zero_key }
    verify := fun _ _ _ => true }

/-- The manager of a 1-peer conference right after startup
(`ConferenceManager::new(7, 1, ..)` followed by
`start_public_key_exchange`). -/
def demo_state_pk1 : ConferenceManager :=
  { ConferenceManager.new 7 1 zero_key zero_key pubA with state := .PublicKeyExchange }

/-- The manager of a 2-peer conference right after startup. -/
def demo_state_pk2 : ConferenceManager :=
  { ConferenceManager.new 7 2 zero_key zero_key pubA with state := .PublicKeyExchange }

/-- A demo 32-byte ephemeral key contribution. -/
def part5 : List Nat := List.replicate 32 5

/-- Another demo 32-byte contribution. -/
def part3 : List Nat := List.replicate 32 3

/-- An inbound frame carrying the local peer's own `PublicKey`, encrypted
under `trivial_crypto` (the server echoes broadcasts back to the
sender). -/
def demo_pk_echo_frame : List Nat := demo_iv ++ (0x01 :: pubA)

/-- An inbound frame carrying the remote peer's `PublicKey`. -/
def demo_pkB_frame : List Nat := demo_iv ++ (0x01 :: pubB)

/-- An inbound frame carrying the remote peer's `EncryptionKeyPart`. -/
def demo_keypart_frame : List Nat := demo_iv ++ (0x02 :: part5)

/-- An inbound frame echoing the local peer's own all-zero
`EncryptionKeyPart`. -/
def demo_keypart_echo_frame : List Nat := demo_iv ++ (0x02 :: zero_key)

/-- The framed `PublicKey` broadcast emitted at startup under
`trivial_crypto`. -/
def demo_pk_message_1 : Message :=
  { conference := 7, message := demo_iv ++ 0x01 :: pubA, message_id := none }

/-- The framed `EncryptionKeyPart` broadcast emitted on entering
`EncryptionKeyNegotiation` under `trivial_crypto`. -/
def demo_keypart_message_0 : Message :=
  { conference := 7, message := demo_iv ++ 0x02 :: zero_key, message_id := none }

/-- The 1-peer manager after its public-key exchange completed. -/
def demo_state_ekn1 : ConferenceManager :=
  { ConferenceManager.new 7 1 zero_key zero_key pubA with
      state := .EncryptionKeyNegotiation, ring := some [pubA], ring_personal_key_index := some 0 }

/-- The 2-peer manager after its public-key exchange completed. -/
def demo_state_ekn2 : ConferenceManager :=
  { ConferenceManager.new 7 2 zero_key zero_key pubA with
      state := .EncryptionKeyNegotiation, unsorted_public_keys := [pubA, pubB],
      ring := some [pubA, pubB], ring_personal_key_index := some 0 }

/-- The 2-peer manager in `NormalOperation` after key negotiation. -/
def demo_state_normal : ConferenceManager :=
  { ConferenceManager.new 7 2 zero_key zero_key pubA with
      state := .NormalOperation, unsorted_public_keys := [pubA, pubB],
      ring := some [pubA, pubB], ring_personal_key_index := some 0,
      ephemeral_key_parts := 1, new_ephemeral_key := part5,
      ephemeral_encryption_key := some part5 }

/-- An `IncomingMessage` frame body on the server byte stream:
`cid = 1`, `len = 1`, one ciphertext byte `0xAB`. -/
def demo_incoming_stream : List Nat := [0, 0, 0, 1, 0, 0, 0, 1, 0xAB]

/-- A `SendMessage` client event: nonce 1, conference 2, a one-byte
message. -/
def demo_send_message_event : ClientEvent :=
  .SendMessage 1 { conference := 2, message := [97], message_id := some 5 }

/-- A framed message from a conference manager for conference 7 with
`message_id = Some(1)`. -/
def demo_framed_message : Message :=
  { conference := 7, message := [1, 2, 3], message_id := some 1 }

/-- A state-manager state with one live conference and an empty
correlation table. -/
def demo_sm_state : StateManager :=
  { conferences := [7], sent_packets := [], send_packets_last_index := 0 }

/-- An `EncryptionResult` whose ciphertext is shorter than `TAG_SIZE`. -/
def demo_short_result : EncryptionResult :=
  { ciphertext := [], iv := demo_iv }

/-- An `EncryptionResult` with a 16-byte ciphertext (one AEAD tag). -/
def demo_full_result : EncryptionResult :=
  { ciphertext := List.replicate 16 7, iv := demo_iv }

/-- The previous-epoch ephemeral key held by a restructuring manager. -/
def eph_key_prev : List Nat := List.replicate 32 2

/-- A crypto model in which only `eph_key_prev` decrypts anything: the
initial key fails, forcing the dual-key fallback path. -/
def fallback_crypto : CryptoModel :=
  { trivial_crypto with
      decrypt_message := fun key er => if key == eph_key_prev then some er.ciphertext else none }

/-- A manager mid-restructuring: a 2-peer conference that finished an
epoch (ring of size 2, ephemeral key `eph_key_prev`) was restructured by
`ConferenceRestructuring(7, 3)`, which set `number_of_peers := 3`,
reseeded the key set, and re-entered `PublicKeyExchange`, preserving the
old ring and ephemeral key. -/
def demo_state_restructuring : ConferenceManager :=
  { conference_id := 7
    number_of_peers := 3
    initial_encryption_key := zero_key
    unsorted_public_keys := [pubA]
    ring := some [pubA, pubB]
    ring_personal_key_index := some 0
    personal_private_key := zero_key
    personal_public_key := pubA
    state := .PublicKeyExchange
    ephemeral_key_parts := 0
    new_ephemeral_key := zero_key
    ephemeral_encryption_key := some eph_key_prev }

/-- A previous-epoch signed payload: 32-byte challenge, 2 responses for
the old 2-member ring, 32-byte key image, and an empty user text —
128 bytes in total. -/
def old_epoch_signed_payload : List Nat := List.replicate 128 0

/-- The previous-epoch signature as parsed over the old 2-member ring. -/
def old_epoch_signature : BLSAG_COMPACT :=
  { challenge := zero_key, responses := [zero_key, zero_key], key_image := zero_key }

/-- The inner `Message` plaintext wrapping `old_epoch_signed_payload`. -/
def old_epoch_plaintext : List Nat :=
  0x03 :: (u32_to_be_bytes 128 ++ old_epoch_signed_payload)

/-- The on-wire frame: `old_epoch_plaintext` encrypted under the
previous epoch's ephemeral key (in `fallback_crypto`). -/
def old_epoch_frame : List Nat := demo_iv ++ old_epoch_plaintext

/-- The XOR of all contributions in a list, starting from the all-zero
key: the value the spec calls "the XOR of all N contributions". -/
def xor_of_all_contributions (l : List (List Nat)) : List Nat :=
  l.foldl apply_ephemeral_key_part zero_key

/-- A demo list of N = 2 contributions. -/
def demo_contributions : List (List Nat) := [part3, part5]

/-- The inductive invariant behind C10: once a manager has left the
key-exchange phase the ring data is present, and once key negotiation
has finished the ephemeral key is present. -/
def setup_complete_inv (st : ConferenceManager) : Prop :=
  (st.state = .PublicKeyExchangeFinished ∨ st.state = .EncryptionKeyNegotiation ∨
      st.state = .EncryptionKeyNegotiationFinished ∨ st.state = .NormalOperation →
    st.ring.isSome ∧ st.ring_personal_key_index.isSome) ∧
  (st.state = .EncryptionKeyNegotiationFinished ∨ st.state = .NormalOperation →
    st.ephemeral_encryption_key.isSome)

/-! ## Theorems -/

/-- C1: on an `IncomingMessage` frame (discriminator `0x07`) with
`cid = 1`, `len = 1` and one ciphertext byte `0xAB`, `read_server_event`
consumes only the two u32 header fields, reads zero ciphertext bytes,
and produces `IncomingMessage(1, [])` — the ciphertext byte `0xAB` is
left unconsumed on the stream.  The claim (consume exactly `len` bytes
and carry them in the event) fails on the code. -/
theorem read_server_event_incoming_reads_no_payload :
    read_server_event 0x07 demo_incoming_stream =
      some (.IncomingMessage 1 [], [0xAB]) := by
  rfl

/-- C2: the bytes `write_client_event` emits for
`SendMessage(nonce = 1, cid = 2, message = [97])` are the discriminator
`0x05`, the 4-byte nonce, the 4-byte cid, then an **8-byte** big-endian
length field (`usize::to_be_bytes` on a 64-bit target), then the message
— 19 bytes in total, not the 14 the claim's 4-byte length field would
give. -/
theorem write_client_event_send_message_length_is_8_bytes :
    write_client_event demo_send_message_event =
      ([0x05, 0, 0, 0, 1, 0, 0, 0, 2, 0, 0, 0, 0, 0, 0, 0, 1, 97], true) := by
  rfl

/-- C3: when the state manager receives a framed `Message` from a
conference manager for conference 7 with `message_id = Some(1)`, it
assigns the fresh nonce 1 but records `SentEvent::CreateConference` (not
`SendMessage(7, 1)`), and a later `MessageAccepted(1, 7)` reply is
therefore dropped with no `UIEvent::MessageAccepted`. -/
theorem handle_conference_message_records_create_conference :
    (demo_sm_state.handle_conference_message demo_framed_message).1.sent_packets.lookup 1 =
        some SentEvent.CreateConference ∧
    (demo_sm_state.handle_conference_message demo_framed_message).2 =
        [ClientEvent.SendMessage 1 demo_framed_message] ∧
    (demo_sm_state.handle_conference_message demo_framed_message).1.handle_message_accepted 1 7 =
        ((demo_sm_state.handle_conference_message demo_framed_message).1, []) := by
  exact ⟨rfl, rfl, rfl⟩

/-- C4: an empty byte vector delivered to a conference manager in the
`PublicKeyExchange` state panics the manager — the
`assert!(!message.is_empty())` at the top of `read_message` fires —
instead of being discarded. -/
theorem process_incoming_empty_message_panics :
    demo_state_pk1.process_event trivial_crypto zero_key (.IncomingMessage []) =
      .error () := by
  rfl

/-- C5: with `number_of_peers = 1`, completing the public-key exchange
leaves the manager in `EncryptionKeyNegotiation` with
`ephemeral_encryption_key` unset and no `ConferenceRestructuringFinished`
emitted, even though `ephemeral_key_parts = 0` already equals
`number_of_peers - 1 = 0`: the completion check only runs inside the
`EncryptionKeyPart` handler after incrementing the counter, so even a
subsequently received key part (counter 1 ≠ 0) does not finish the
setup. -/
theorem one_peer_key_negotiation_never_finishes :
    demo_state_pk1.process_event trivial_crypto zero_key (.IncomingMessage demo_pk_echo_frame) =
        .ok (demo_state_ekn1, [], [demo_keypart_message_0]) ∧
    demo_state_ekn1.state = .EncryptionKeyNegotiation ∧
    demo_state_ekn1.ephemeral_encryption_key = none ∧
    demo_state_ekn1.ephemeral_key_parts = 0 ∧
    demo_state_ekn1.number_of_peers - 1 = 0 ∧
    demo_state_ekn1.process_event trivial_crypto zero_key (.IncomingMessage demo_keypart_echo_frame) =
        .ok ({ demo_state_ekn1 with ephemeral_key_parts := 1 }, [], []) := by
  exact ⟨rfl, rfl, rfl, rfl, rfl, rfl⟩

set_option maxRecDepth 8192 in
/-- C6: during a restructuring from 2 to 3 peers, a `Message` frame
encrypted under the previous `ephemeral_encryption_key` is decrypted via
the fallback key, and the crypto model verifies every signature over the
preserved previous ring — yet the manager delivers no `IncomingMessage`
UI event: `check_message_signature` sizes the signature by the new
`number_of_peers = 3` (160 bytes minimum) instead of the old ring length
2 (128 bytes), so the well-formed previous-epoch payload is rejected as
too short. -/
theorem restructuring_drops_previous_epoch_message :
    demo_state_restructuring.decrypt_message_helper fallback_crypto old_epoch_frame =
        some old_epoch_plaintext ∧
    fallback_crypto.decrypt_message demo_state_restructuring.initial_encryption_key
        { ciphertext := old_epoch_plaintext, iv := demo_iv } = none ∧
    fallback_crypto.verify old_epoch_signature [pubA, pubB] [] = true ∧
    demo_state_restructuring.process_event fallback_crypto zero_key
        (.IncomingMessage old_epoch_frame) =
      .ok (demo_state_restructuring, [], []) := by
  exact ⟨rfl, rfl, rfl, rfl⟩

/-- C8 counterexample: for the `EncryptionResult` with an empty
ciphertext, `decode (encode x)` fails (`encode x` is 12 bytes, below the
`IV_SIZE + TAG_SIZE` minimum), so `decode (encode x) = Ok(x)` does not
hold for arbitrary ciphertexts. -/
theorem decode_encode_fails_on_short_ciphertext :
    ¬ (EncryptionResult.decode demo_short_result.encode = some demo_short_result) := by
  decide

/-- C8 (amended): for every `EncryptionResult` with a 12-byte iv and a
ciphertext of at least `TAG_SIZE = 16` bytes (every value
`encrypt_message` actually produces), decoding the encoding returns the
original value. -/
theorem decode_encode_roundtrip (x : EncryptionResult)
    (hiv : x.iv.length = IV_SIZE) (hct : TAG_SIZE ≤ x.ciphertext.length) :
    EncryptionResult.decode x.encode = some x := by
  unfold EncryptionResult.decode EncryptionResult.encode
  rw [if_neg]
  · rw [List.take_left' hiv, List.drop_left' hiv]
  · rw [List.length_append, hiv]
    unfold IV_SIZE TAG_SIZE at *
    omega

/-- C8 witness: the round-trip law evaluated on a concrete result with a
16-byte ciphertext. -/
theorem decode_encode_roundtrip_witness :
    EncryptionResult.decode demo_full_result.encode = some demo_full_result :=
  decode_encode_roundtrip demo_full_result (by decide) (by decide)

/-- C9: a `MessageAccepted` reply whose nonce is not in `sent_packets`
leaves the state manager's entire state (correlation table, conference
table, nonce counter) unchanged and emits no UI event. -/
theorem message_accepted_unknown_nonce_is_dropped (st : StateManager)
    (packet_nonce conference_id : Nat)
    (h : st.sent_packets.lookup packet_nonce = none) :
    st.handle_message_accepted packet_nonce conference_id = (st, []) := by
  unfold StateManager.handle_message_accepted
  rw [h]

/-- C9 witness: `MessageAccepted(99999, 7)` against a state whose
correlation table is empty. -/
theorem message_accepted_unknown_nonce_witness :
    demo_sm_state.handle_message_accepted 99999 7 = (demo_sm_state, []) :=
  message_accepted_unknown_nonce_is_dropped demo_sm_state 99999 7 rfl

/-- XOR-folding is right-commutative: folding two parts in either order
gives the same key. -/
theorem apply_ephemeral_key_part_right_comm (a b c : List Nat) :
    apply_ephemeral_key_part (apply_ephemeral_key_part a b) c
      = apply_ephemeral_key_part (apply_ephemeral_key_part a c) b := by
  induction a generalizing b c with
  | nil => simp [apply_ephemeral_key_part]
  | cons x xs ih =>
    cases b with
    | nil => simp [apply_ephemeral_key_part]
    | cons y ys =>
      cases c with
      | nil => simp [apply_ephemeral_key_part]
      | cons z zs =>
        simp only [apply_ephemeral_key_part, List.zipWith_cons_cons]
        refine congrArg₂ List.cons ?_ (ih ys zs)
        show x ^^^ y ^^^ z = x ^^^ z ^^^ y
        rw [Nat.xor_assoc, Nat.xor_assoc, Nat.xor_comm y z]

/-- Folding a 32-byte part into the all-zero key gives the part back. -/
theorem apply_ephemeral_key_part_zero (x : List Nat) (h : x.length = 32) :
    apply_ephemeral_key_part zero_key x = x := by
  have general : ∀ (n : Nat) (y : List Nat), y.length = n →
      List.zipWith Nat.xor (List.replicate n 0) y = y := by
    intro n y
    induction y generalizing n with
    | nil => intro hn; subst hn; simp
    | cons a as ih =>
      intro hn
      cases n with
      | zero => simp at hn
      | succ m =>
        simp only [List.length_cons] at hn
        simp only [List.replicate, List.zipWith_cons_cons, ih m (by omega)]
        refine congrArg₂ List.cons ?_ rfl
        show (0 : Nat) ^^^ a = a
        exact Nat.zero_xor a
  exact general 32 x h

/-- The element at index `i` together with the rest of the list is a
permutation of the whole list. -/
theorem get_cons_eraseIdx_perm {α : Type} : ∀ (l : List α) (i : Nat) (h : i < l.length),
    List.Perm (l.get ⟨i, h⟩ :: l.eraseIdx i) l
  | a :: l, 0, _ => by simp [List.eraseIdx]
  | a :: l, i + 1, h => by
    simp only [List.get, List.eraseIdx]
    exact List.Perm.trans (List.Perm.swap a _ _)
      (List.Perm.cons a (get_cons_eraseIdx_perm l i (by simpa using h)))

/-- C7: for every list of 32-byte contributions, every peer index `i`,
and every arrival order of the remaining contributions, XOR-folding the
peer contributions into a key initialized to contribution `i` yields
the XOR of all the contributions. -/
theorem ephemeral_key_fold_is_xor_of_all (l : List (List Nat))
    (h32 : forall x, x ∈ l → x.length = 32) (i : Nat) (hi : i < l.length)
    (received : List (List Nat)) (hp : List.Perm received (l.eraseIdx i)) :
    List.foldl apply_ephemeral_key_part (l.get ⟨i, hi⟩) received
      = xor_of_all_contributions l := by
  have comm : ∀ x ∈ received, ∀ y ∈ received, ∀ z : List Nat,
      apply_ephemeral_key_part (apply_ephemeral_key_part z x) y
        = apply_ephemeral_key_part (apply_ephemeral_key_part z y) x :=
    fun x _ y _ z => apply_ephemeral_key_part_right_comm z x y
  rw [List.Perm.foldl_eq' hp comm (l.get ⟨i, hi⟩)]
  rw [← apply_ephemeral_key_part_zero (l.get ⟨i, hi⟩) (h32 _ (List.get_mem l i hi))]
  rw [← List.foldl_cons]
  have perm2 : List.Perm (l.get ⟨i, hi⟩ :: l.eraseIdx i) l := get_cons_eraseIdx_perm l i hi
  have comm2 : ∀ x ∈ (l.get ⟨i, hi⟩ :: l.eraseIdx i), ∀ y ∈ (l.get ⟨i, hi⟩ :: l.eraseIdx i),
      ∀ z : List Nat,
      apply_ephemeral_key_part (apply_ephemeral_key_part z x) y
        = apply_ephemeral_key_part (apply_ephemeral_key_part z y) x :=
    fun x _ y _ z => apply_ephemeral_key_part_right_comm z x y
  rw [List.Perm.foldl_eq' perm2 comm2 zero_key]
  rfl

/-- C7 witness: two concrete contributions, peer 0 receiving the other
contribution. -/
theorem ephemeral_key_fold_is_xor_of_all_witness :
    List.foldl apply_ephemeral_key_part (demo_contributions.get ⟨0, by decide⟩) [part5]
      = xor_of_all_contributions demo_contributions :=
  ephemeral_key_fold_is_xor_of_all demo_contributions (by decide) 0 (by decide)
    [part5] (List.Perm.refl _)


theorem start_public_key_exchange_ok_state {self : ConferenceManager} {cm : CryptoModel}
    {st' : ConferenceManager} {ui : List UIEvent} {out : List Message}
    (h : self.start_public_key_exchange cm = .ok (st', ui, out)) :
    st' = { self with state := .PublicKeyExchange } := by
  unfold ConferenceManager.start_public_key_exchange at h
  try dsimp only [] at h
  split at h
  · simp only [Except.ok.injEq, Prod.mk.injEq] at h
    exact h.1.symm
  · simp at h

theorem start_public_key_exchange_inv {self : ConferenceManager} {cm : CryptoModel}
    {st' : ConferenceManager} {ui : List UIEvent} {out : List Message}
    (h : self.start_public_key_exchange cm = .ok (st', ui, out)) :
    setup_complete_inv st' := by
  rw [start_public_key_exchange_ok_state h]
  constructor
  · intro hc
    rcases hc with hc | hc | hc | hc <;> simp at hc
  · intro hc
    rcases hc with hc | hc <;> simp at hc

theorem start_ephemeral_key_negotiation_ok_state {self : ConferenceManager} {cm : CryptoModel}
    {st' : ConferenceManager} {ui : List UIEvent} {out : List Message}
    (h : self.start_ephemeral_key_negotiation cm = .ok (st', ui, out)) :
    st' = { self with state := .EncryptionKeyNegotiation } := by
  unfold ConferenceManager.start_ephemeral_key_negotiation at h
  try dsimp only [] at h
  split at h
  · simp only [Except.ok.injEq, Prod.mk.injEq] at h
    exact h.1.symm
  · simp at h

theorem finish_public_key_exchange_inv {self : ConferenceManager} {cm : CryptoModel}
    {st' : ConferenceManager} {ui : List UIEvent} {out : List Message}
    (h : self.finish_public_key_exchange cm = .ok (st', ui, out)) :
    setup_complete_inv st' := by
  unfold ConferenceManager.finish_public_key_exchange at h
  try dsimp only [] at h
  split at h
  · simp at h
  · split at h
    · simp at h
    · rw [start_ephemeral_key_negotiation_ok_state h]
      constructor
      · intro _
        exact ⟨rfl, rfl⟩
      · intro hc
        rcases hc with hc | hc <;> simp at hc

theorem process_text_message_ok_state {self : ConferenceManager} {cm : CryptoModel}
    {message : List Nat} {st' : ConferenceManager} {ui : List UIEvent} {out : List Message}
    (h : self.process_text_message cm message = .ok (st', ui, out)) :
    st' = self := by
  unfold ConferenceManager.process_text_message at h
  try dsimp only [] at h
  split at h
  · simp at h
  · simp only [Except.ok.injEq, Prod.mk.injEq] at h
    exact h.1.symm
  · simp only [Except.ok.injEq, Prod.mk.injEq] at h
    exact h.1.symm

theorem process_message_public_key_exchange_inv {self : ConferenceManager} {cm : CryptoModel}
    {message : List Nat} {st' : ConferenceManager} {ui : List UIEvent} {out : List Message}
    (hInv : setup_complete_inv self)
    (h : self.process_message_public_key_exchange cm message = .ok (st', ui, out)) :
    setup_complete_inv st' := by
  unfold ConferenceManager.process_message_public_key_exchange at h
  try dsimp only [] at h
  split at h
  · simp at h
  · simp only [Except.ok.injEq, Prod.mk.injEq] at h
    rw [← h.1]
    exact hInv
  · split at h
    · exact finish_public_key_exchange_inv h
    · simp only [Except.ok.injEq, Prod.mk.injEq] at h
      rw [← h.1]
      exact hInv
  · rw [process_text_message_ok_state h]
    exact hInv
  · simp only [Except.ok.injEq, Prod.mk.injEq] at h
    rw [← h.1]
    exact hInv

theorem process_message_ephemeral_key_negotiation_inv {self : ConferenceManager}
    {cm : CryptoModel} {message : List Nat} {st' : ConferenceManager} {ui : List UIEvent}
    {out : List Message}
    (hInv : setup_complete_inv self) (hstate : self.state = .EncryptionKeyNegotiation)
    (h : self.process_message_ephemeral_key_negotiation cm message = .ok (st', ui, out)) :
    setup_complete_inv st' := by
  unfold ConferenceManager.process_message_ephemeral_key_negotiation at h
  try dsimp only [] at h
  split at h
  · simp at h
  · simp only [Except.ok.injEq, Prod.mk.injEq] at h
    rw [← h.1]
    exact hInv
  · split at h
    · simp only [Except.ok.injEq, Prod.mk.injEq] at h
      rw [← h.1]
      exact hInv
    · split at h
      · unfold ConferenceManager.finish_conference_setup at h
        try dsimp only [] at h
        simp only [Except.ok.injEq, Prod.mk.injEq] at h
        rw [← h.1]
        have hring := (hInv.1 (Or.inr (Or.inl hstate)))
        constructor
        · intro _
          exact hring
        · intro _
          rfl
      · simp only [Except.ok.injEq, Prod.mk.injEq] at h
        rw [← h.1]
        exact hInv
  · rw [process_text_message_ok_state h]
    exact hInv
  · simp only [Except.ok.injEq, Prod.mk.injEq] at h
    rw [← h.1]
    exact hInv

theorem process_message_normal_operation_inv {self : ConferenceManager} {cm : CryptoModel}
    {message : List Nat} {st' : ConferenceManager} {ui : List UIEvent} {out : List Message}
    (hInv : setup_complete_inv self)
    (h : self.process_message_normal_operation cm message = .ok (st', ui, out)) :
    setup_complete_inv st' := by
  unfold ConferenceManager.process_message_normal_operation at h
  try dsimp only [] at h
  split at h
  · simp at h
  · simp only [Except.ok.injEq, Prod.mk.injEq] at h
    rw [← h.1]
    exact hInv
  · rw [process_text_message_ok_state h]
    exact hInv
  · simp only [Except.ok.injEq, Prod.mk.injEq] at h
    rw [← h.1]
    exact hInv

theorem process_incoming_message_inv {self : ConferenceManager} {cm : CryptoModel}
    {message : List Nat} {st' : ConferenceManager} {ui : List UIEvent} {out : List Message}
    (hInv : setup_complete_inv self)
    (h : self.process_incoming_message cm message = .ok (st', ui, out)) :
    setup_complete_inv st' := by
  unfold ConferenceManager.process_incoming_message at h
  try dsimp only [] at h
  split at h
  · simp only [Except.ok.injEq, Prod.mk.injEq] at h
    rw [← h.1]
    exact hInv
  · exact process_message_public_key_exchange_inv hInv h
  · rename_i hstate
    exact process_message_ephemeral_key_negotiation_inv hInv hstate h
  · exact process_message_normal_operation_inv hInv h
  · simp only [Except.ok.injEq, Prod.mk.injEq] at h
    rw [← h.1]
    exact hInv

theorem process_outbound_message_ok_state {self : ConferenceManager} {cm : CryptoModel}
    {message_id : Nat} {message : List Nat} {st' : ConferenceManager} {ui : List UIEvent}
    {out : List Message}
    (h : self.process_outbound_message cm message_id message = .ok (st', ui, out)) :
    st' = self := by
  unfold ConferenceManager.process_outbound_message at h
  try dsimp only [] at h
  split at h
  · split at h
    · split at h
      · simp at h
      · split at h
        · simp at h
        · simp only [Except.ok.injEq, Prod.mk.injEq] at h
          exact h.1.symm
    · simp at h
  · simp only [Except.ok.injEq, Prod.mk.injEq] at h
    exact h.1.symm

theorem initiate_conference_restructuring_inv {self : ConferenceManager} {cm : CryptoModel}
    {rnd : List Nat} {n : Nat} {st' : ConferenceManager} {ui : List UIEvent} {out : List Message}
    (h : self.initiate_conference_restructuring cm rnd n = .ok (st', ui, out)) :
    setup_complete_inv st' := by
  unfold ConferenceManager.initiate_conference_restructuring at h
  try dsimp only [] at h
  exact start_public_key_exchange_inv h

theorem process_event_inv {self : ConferenceManager} {cm : CryptoModel} {rnd : List Nat}
    {ev : ConferenceEvent} {st' : ConferenceManager} {ui : List UIEvent} {out : List Message}
    (hInv : setup_complete_inv self)
    (h : self.process_event cm rnd ev = .ok (st', ui, out)) :
    setup_complete_inv st' := by
  cases ev with
  | ConferenceRestructuring n => exact initiate_conference_restructuring_inv h
  | IncomingMessage m => exact process_incoming_message_inv hInv h
  | OutboundMessage i m =>
      rw [process_outbound_message_ok_state h]
      exact hInv

theorem conference_reachable_inv {cm : CryptoModel} {st : ConferenceManager}
    (h : ConferenceReachable cm st) : setup_complete_inv st := by
  induction h with
  | startup cid n ikey priv pub st0 ui out heq =>
      exact start_public_key_exchange_inv heq
  | step st rnd ev st' ui out hre heq ih =>
      exact process_event_inv ih heq

/-- C10: in every reachable conference-manager state, if the state is
`NormalOperation` or `EncryptionKeyNegotiationFinished` then `ring`,
`ring_personal_key_index` and `ephemeral_encryption_key` are all set, so
the assertions guarding outbound signing and encryption cannot fire. -/
theorem normal_operation_has_ring_and_key (cm : CryptoModel) (st : ConferenceManager)
    (h : ConferenceReachable cm st)
    (hs : st.state = .NormalOperation ∨ st.state = .EncryptionKeyNegotiationFinished) :
    st.ring.isSome ∧ st.ring_personal_key_index.isSome ∧
      st.ephemeral_encryption_key.isSome := by
  obtain ⟨h1, h2⟩ := conference_reachable_inv h
  rcases hs with hs | hs
  · obtain ⟨hr, hi⟩ := h1 (Or.inr (Or.inr (Or.inr hs)))
    exact ⟨hr, hi, h2 (Or.inr hs)⟩
  · obtain ⟨hr, hi⟩ := h1 (Or.inr (Or.inr (Or.inl hs)))
    exact ⟨hr, hi, h2 (Or.inl hs)⟩

/-- C10 witness: a concrete reachable `NormalOperation` state (a 2-peer
conference driven through the full key exchange under
`trivial_crypto`). -/
theorem normal_operation_has_ring_and_key_witness :
    demo_state_normal.ring.isSome ∧ demo_state_normal.ring_personal_key_index.isSome ∧
      demo_state_normal.ephemeral_encryption_key.isSome :=
  normal_operation_has_ring_and_key trivial_crypto demo_state_normal
    (ConferenceReachable.step demo_state_ekn2 zero_key (.IncomingMessage demo_keypart_frame)
      demo_state_normal [.ConferenceRestructuringFinished 7] []
      (ConferenceReachable.step demo_state_pk2 zero_key (.IncomingMessage demo_pkB_frame)
        demo_state_ekn2 [] [demo_keypart_message_0]
        (ConferenceReachable.startup 7 2 zero_key zero_key pubA
          demo_state_pk2 [] [demo_pk_message_1] rfl)
        rfl)
      rfl)
    (Or.inl rfl)


end AnonConf
